import Mathlib

/-!
Shallow embedding of gogive (`gogive.go`): a vanity-import-path server that
maps path prefixes to version-control sources.  The embedding covers the
route table (`Router`), the configuration parser (`NewRouter`), the
longest-prefix resolver (`findPath`), the supervisor reload loop
(`loadConfig`, modelled as `supervisorRun` over a sequence of events), and
the request handler (`ServeHTTP`, modelled as `serveHTTP`).
-/

/-- Go struct `Source`: `type Source struct { Vcs, Url string }`. -/
structure Source where
  vcs : String
  url : String
  deriving DecidableEq, Repr

/-- Go map type `Router`: `type Router map[string]Source`.  A Go map with string keys, embedded as
an association list whose keys are unique (the parser rejects duplicates);
lookup returns the first binding. -/
abbrev Router := List (String × Source)

/-- Go map lookup `r[path]` on the association-list embedding. -/
def lookupRoute : Router → String → Option Source
  | [], _ => none
  | (k, v) :: rest, key => if k = key then some v else lookupRoute rest key

/-- Go `strings.Join(nodes, "/")`. -/
def joinSlash : List String → String
  | [] => ""
  | [s] => s
  | s :: rest => s ++ "/" ++ joinSlash rest

/-- Split a character list at every character satisfying `p`, keeping the
(possibly empty) pieces between the separators. -/
def splitOnP (p : Char → Bool) : List Char → List (List Char)
  | [] => [[]]
  | c :: rest =>
    if p c then [] :: splitOnP p rest
    else
      match splitOnP p rest with
      | [] => [[c]]
      | w :: ws => (c :: w) :: ws

/-- Go `strings.Split(path, "/")`: split around each `/`, keeping empty
pieces (so `strings.Split("", "/") = [""]`). -/
def splitSlash (s : String) : List String :=
  (splitOnP (fun c => c = '/') s.data).map String.mk

/-- The loop of `findPath`: test `strings.Join(nodes, "/")` against the map,
then drop the last segment (`nodes = nodes[:len(nodes)-1]`) and repeat while
`len(nodes) > 0`. -/
def findPathAux (r : Router) : List String → Option (Source × String)
  | [] => none
  | a :: rest =>
    match lookupRoute r (joinSlash (a :: rest)) with
    | some src => some (src, joinSlash (a :: rest))
    | none => findPathAux r ((a :: rest).dropLast)
termination_by nodes => nodes.length
decreasing_by
  simp [List.length_dropLast]

/-- Embedding of `func (r Router) findPath(path string) (Source, string, bool)`:
`nodes := strings.Split(path, "/")` then the candidate loop.  The Go triple
`(Source, string, bool)` is embedded as `Option (Source × String)`. -/
def findPath (r : Router) (path : String) : Option (Source × String) :=
  findPathAux r (splitSlash path)

/-- Go `unicode.IsSpace`: the White_Space code points tested by
`strings.Fields` when splitting a config line. -/
def goIsSpace (c : Char) : Bool :=
  c = '\t' || c = '\n' || c = Char.ofNat 11 || c = Char.ofNat 12 ||
  c = '\r' || c = ' ' || c = Char.ofNat 0x85 || c = Char.ofNat 0xA0 ||
  c = Char.ofNat 0x1680 ||
  (0x2000 ≤ c.toNat && c.toNat ≤ 0x200A) ||
  c = Char.ofNat 0x2028 || c = Char.ofNat 0x2029 ||
  c = Char.ofNat 0x202F || c = Char.ofNat 0x205F || c = Char.ofNat 0x3000

/-- Go `strings.Fields(s)`: split around runs of white space, returning the
non-empty words (splitting at every space character and dropping the empty
pieces yields exactly the maximal non-space runs). -/
def fields (s : String) : List String :=
  ((splitOnP goIsSpace s.data).filter (fun w => w ≠ [])).map String.mk

/-- Go `strings.HasPrefix(s, "#")`: whether the first character is `#`. -/
def startsWithHash (s : String) : Bool :=
  match s.data with
  | [] => false
  | c :: _ => c = '#'

/-- The errors a load can end with: `os.Open` failure, a non-nil
`scanner.Err()`, or the duplicate-entry parse error
`fmt.Errorf("%s:%d: duplicate entry %s", filename, n, fields[0])`
(file name, 1-based line number, duplicated prefix). -/
inductive LoadError where
  | ioError
  | scanError
  | dupEntry (file : String) (line : Nat) (key : String)
  deriving DecidableEq, Repr

/-- The scanner loop of `NewRouter`: `n` counts lines already read (the
current line is `n+1`); comment lines (`strings.HasPrefix(text, "#")`),
blank lines (`len(fields) == 0`) and malformed lines (`len(fields) != 3`)
are skipped with `continue`; a repeated first field stops the load with the
duplicate-entry error; otherwise `r[fields[0]] = Source{fields[1], fields[2]}`. -/
def newRouterLines (filename : String) (r : Router) (n : Nat) :
    List String → Except LoadError Router
  | [] => .ok r
  | line :: rest =>
    if startsWithHash line then
      newRouterLines filename r (n + 1) rest
    else if (fields line).length = 0 then
      newRouterLines filename r (n + 1) rest
    else if (fields line).length ≠ 3 then
      newRouterLines filename r (n + 1) rest
    else if (lookupRoute r ((fields line).getD 0 "")).isSome then
      .error (.dupEntry filename (n + 1) ((fields line).getD 0 ""))
    else
      newRouterLines filename
        (r ++ [((fields line).getD 0 "",
          ⟨(fields line).getD 1 "", (fields line).getD 2 ""⟩)])
        (n + 1) rest

/-- Embedding of `func NewRouter(filename string) (Router, error)`.  The file system is
embedded as the `file` argument: `none` when `os.Open` fails, otherwise the
lines the scanner delivered together with whether `scanner.Err()` was
non-nil afterwards.  The Go pair `(Router, error)` is embedded as `Except`:
`.ok` is exactly a return with a nil error. -/
def NewRouter (filename : String) (file : Option (List String × Bool)) :
    Except LoadError Router :=
  match file with
  | none => .error .ioError
  | some (lines, scanErr) =>
    match newRouterLines filename [] 0 lines with
    | .error e => .error e
    | .ok r => if scanErr then .error .scanError else .ok r

/-- An event the `loadConfig` select loop serves: a handler receiving from
`srv.Routes`, or a SIGHUP (carrying the state of the config file at that
moment, in the same encoding `NewRouter` takes). -/
inductive Event where
  | read
  | sighup (file : Option (List String × Bool))

/-- The `loadConfig` select loop after a successful initial load, serialized
over a list of events: `case srv.Routes <- r` delivers the current table to
a reader, `case <-sig` reloads and replaces `r` only when `NewRouter`
succeeds.  Returns the final table and the tables delivered to readers. -/
def supervisorRun (config : String) (r : Router) :
    List Event → Router × List Router
  | [] => (r, [])
  | .read :: es =>
    let out := supervisorRun config r es
    (out.1, r :: out.2)
  | .sighup file :: es =>
    match NewRouter config file with
    | .error _ => supervisorRun config r es
    | .ok nr => supervisorRun config nr es

/-- The parts of an `http.Request` that `ServeHTTP` reads: the method, the
`Host:` header, `r.URL.Path`, and `r.FormValue("go-get")`. -/
structure Request where
  method : String
  host : String
  path : String
  goGetParam : String
  deriving DecidableEq, Repr

/-- What `ServeHTTP` writes: `http.Error`, `http.Redirect`
(`http.StatusSeeOther` = 303), or the rendered `go-import` page
(`{{.Host}}{{.Path}} {{.Vcs}} {{.Url}}`). -/
inductive Response where
  | httpError (msg : String) (code : Nat)
  | redirect (url : String) (code : Nat)
  | page (host root vcs url : String)
  deriving DecidableEq, Repr

/-- Embedding of `func (s *Server) ServeHTTP`: reject non-GET with 405, resolve the path
against the table taken from `s.Routes`, 404 on no match, redirect to
godoc.org without the `go-get=1` parameter, else render the page. -/
def serveHTTP (routes : Router) (req : Request) : Response :=
  if req.method ≠ "GET" then
    .httpError "Method Not Allowed" 405
  else
    match findPath routes req.path with
    | none => .httpError "Not Found" 404
    | some (src, root) =>
      if req.goGetParam ≠ "1" then
        .redirect ("http://godoc.org/" ++ req.host ++ req.path) 303
      else
        .page req.host root src.vcs src.url

/-! ### Basic lemmas about the embedded operations -/

theorem lookupRoute_eq_none (r : Router) (key : String) :
    lookupRoute r key = none ↔ ∀ kv ∈ r, kv.1 ≠ key := by
  induction r with
  | nil => simp [lookupRoute]
  | cons kv rest ih =>
    obtain ⟨k, v⟩ := kv
    by_cases h : k = key <;> simp [lookupRoute, h, ih]

theorem lookupRoute_isSome (r : Router) (key : String) :
    (lookupRoute r key).isSome = true ↔ key ∈ r.map Prod.fst := by
  induction r with
  | nil => simp [lookupRoute]
  | cons kv rest ih =>
    obtain ⟨k, v⟩ := kv
    by_cases h : k = key <;> simp [lookupRoute, h, ih]
    exact fun hk => (h hk.symm).elim

theorem splitOnP_ne_nil (p : Char → Bool) (cs : List Char) :
    splitOnP p cs ≠ [] := by
  induction cs with
  | nil => simp [splitOnP]
  | cons c rest ih =>
    by_cases h : p c
    · simp [splitOnP, h]
    · simp only [splitOnP, h]
      cases hsp : splitOnP p rest <;> simp

theorem mem_splitOnP (p : Char → Bool) (cs : List Char) :
    ∀ w ∈ splitOnP p cs, ∀ c ∈ w, p c = false := by
  induction cs with
  | nil => simp [splitOnP]
  | cons c rest ih =>
    by_cases h : p c
    · simp only [splitOnP, h, if_true]
      intro w hw
      rcases List.mem_cons.mp hw with rfl | hw'
      · simp
      · exact ih w hw'
    · simp only [splitOnP, h, if_false]
      cases hsp : splitOnP p rest with
      | nil => exact absurd hsp (splitOnP_ne_nil p rest)
      | cons w0 ws =>
        intro w hw
        rcases List.mem_cons.mp hw with rfl | hw'
        · intro x hx
          rcases List.mem_cons.mp hx with rfl | hx'
          · simpa using h
          · exact ih w0 (hsp ▸ List.mem_cons_self w0 ws) x hx'
        · exact ih w (hsp ▸ List.mem_cons_of_mem w0 hw')

theorem fields_words (s : String) : ∀ w ∈ fields s,
    w ≠ "" ∧ ∀ c ∈ w.data, goIsSpace c = false := by
  intro w hw
  simp only [fields, List.mem_map, List.mem_filter] at hw
  obtain ⟨wl, ⟨hmem, hne⟩, rfl⟩ := hw
  constructor
  · intro hcon
    have : wl = [] := by
      simpa [String.ext_iff] using hcon
    simp [this] at hne
  · intro c hc
    exact mem_splitOnP goIsSpace s.data wl hmem c hc

/-- A non-empty list contains its `getD 0` element. -/
theorem getD_zero_mem {α : Type} (l : List α) (d : α) (h : l ≠ []) :
    l.getD 0 d ∈ l := by
  cases l with
  | nil => exact absurd rfl h
  | cons a rest => simp [List.getD]

/-- When every pending event is a read, the loop just hands the current
table to each reader and keeps it. -/
theorem supervisorRun_reads (config : String) (r : Router) (es : List Event)
    (h : ∀ e ∈ es, e = .read) :
    supervisorRun config r es = (r, es.map fun _ => r) := by
  induction es with
  | nil => simp [supervisorRun]
  | cons e rest ih =>
    have he : e = .read := h e (List.mem_cons_self e rest)
    subst he
    have := ih fun e' he' => h e' (List.mem_cons_of_mem _ he')
    simp [supervisorRun, this]

/-! ### The claims -/

/-- C2 (code evidence): a non-comment, non-blank line with 2 fields is
silently skipped by `NewRouter`, which succeeds with an empty table instead
of failing with a parse error naming line 1. -/
theorem newRouter_skips_malformed_line :
    startsWithHash "/a git" = false ∧ (fields "/a git").length = 2 ∧
    NewRouter "gogive.conf" (some (["/a git"], false)) = .ok [] :=
  ⟨rfl, rfl, rfl⟩

/-- C4: when a reload attempt fails (`NewRouter` returns an error), the
supervisor loop behaves exactly as if the trigger had never arrived: the
published table and everything later readers receive are unchanged, and in
particular a run of subsequent reads all receive the previous table. -/
theorem reload_failure_keeps_table (config : String) (r : Router)
    (file : Option (List String × Bool)) (es : List Event)
    (h : ∃ e, NewRouter config file = .error e) :
    supervisorRun config r (.sighup file :: es) = supervisorRun config r es ∧
    ((∀ e ∈ es, e = .read) →
      (supervisorRun config r (.sighup file :: es)).2 = es.map fun _ => r) := by
  obtain ⟨e, he⟩ := h
  constructor
  · simp [supervisorRun, he]
  · intro hr
    simp [supervisorRun, he, supervisorRun_reads config r es hr]

theorem reload_failure_keeps_table_witness :
    supervisorRun "gogive.conf" [] [.sighup none, .read] =
        supervisorRun "gogive.conf" [] [.read] ∧
      ((∀ e ∈ [Event.read], e = .read) →
        (supervisorRun "gogive.conf" [] [.sighup none, .read]).2 =
          [Event.read].map fun _ => ([] : Router)) :=
  reload_failure_keeps_table "gogive.conf" [] none [.read] ⟨.ioError, rfl⟩

/-- C6: matching is on exact segment boundaries: with the table
`{"/net": S}`, `/network` does not resolve, while `/net/lldp` resolves to
`(S, "/net")`. -/
theorem findPath_segment_boundary (S : Source) :
    findPath [("/net", S)] "/network" = none ∧
    findPath [("/net", S)] "/net/lldp" = some (S, "/net") := by
  constructor <;>
    simp [findPath, findPathAux, splitSlash, splitOnP, joinSlash, lookupRoute]

/-- C10: a request whose method is not GET is answered 405 for every route
table, so the response is produced without consulting (or waiting for) the
table and resolution is never reached. -/
theorem serveHTTP_non_get (routes : Router) (req : Request)
    (h : req.method ≠ "GET") :
    serveHTTP routes req = .httpError "Method Not Allowed" 405 ∧
    ∀ routes2 : Router, serveHTTP routes2 req = serveHTTP routes req := by
  refine ⟨by simp [serveHTTP, h], fun routes2 => ?_⟩
  simp [serveHTTP, h]

theorem serveHTTP_non_get_witness :
    serveHTTP [] ⟨"POST", "example.com", "/net", "1"⟩ =
        .httpError "Method Not Allowed" 405 ∧
      ∀ routes2 : Router, serveHTTP routes2 ⟨"POST", "example.com", "/net", "1"⟩ =
        serveHTTP [] ⟨"POST", "example.com", "/net", "1"⟩ :=
  serveHTTP_non_get [] ⟨"POST", "example.com", "/net", "1"⟩ (by decide)

theorem joinSlash_append_singleton (ys : List String) (x : String) :
    joinSlash (ys ++ [x]) =
      if ys = [] then x else joinSlash ys ++ "/" ++ x := by
  induction ys with
  | nil => simp [joinSlash]
  | cons y ys ih =>
    cases ys with
    | nil => simp [joinSlash]
    | cons z zs =>
      simp only [List.cons_append, joinSlash, List.cons_ne_nil, if_false,
        List.append_eq] at ih ⊢
      rw [ih]
      simp [String.append_assoc]

/-- Rejoining more segments of the same split never shortens the string:
the candidates `findPath` tries earlier are the longer ones. -/
theorem joinSlash_take_mono (segs : List String) (k j : Nat)
    (h0 : 0 < k) (hkj : k ≤ j) (hj : j ≤ segs.length) :
    (joinSlash (segs.take k)).length ≤ (joinSlash (segs.take j)).length := by
  induction j, hkj using Nat.le_induction with
  | base => exact Nat.le_refl _
  | succ j hkj ih =>
    have hjlen : j < segs.length := Nat.lt_of_succ_le hj
    refine (ih (Nat.le_of_lt hjlen)).trans ?_
    rw [List.take_succ, List.getElem?_eq_getElem hjlen, Option.toList_some,
      joinSlash_append_singleton]
    have htk : segs.take j ≠ [] := by
      have hlen : (segs.take j).length = j := by
        rw [List.length_take]
        omega
      intro hcon
      rw [hcon] at hlen
      simp at hlen
      omega
    rw [if_neg htk]
    simp only [String.length_append, Nat.add_assoc]
    exact Nat.le_add_right _ _

/-- Full characterization of the candidate loop of `findPath`: a hit is the
longest rejoined segment prefix of `nodes` that is a key of the table, and a
miss means no rejoined segment prefix is a key. -/
theorem findPathAux_spec (r : Router) (nodes : List String) :
    (∀ src root, findPathAux r nodes = some (src, root) →
      ∃ k, 0 < k ∧ k ≤ nodes.length ∧ root = joinSlash (nodes.take k) ∧
        lookupRoute r root = some src ∧
        ∀ j, k < j → j ≤ nodes.length →
          lookupRoute r (joinSlash (nodes.take j)) = none) ∧
    (findPathAux r nodes = none →
      ∀ k, 0 < k → k ≤ nodes.length →
        lookupRoute r (joinSlash (nodes.take k)) = none) := by
  induction nodes using findPathAux.induct r with
  | case1 =>
    constructor
    · intro src root h
      simp [findPathAux] at h
    · intro _ k hk0 hkle
      simp at hkle
      omega
  | case2 a rest src0 hl =>
    constructor
    · intro src root h
      simp only [findPathAux, hl] at h
      obtain ⟨rfl, rfl⟩ : src0 = src ∧ joinSlash (a :: rest) = root := by
        simpa using h
      refine ⟨(a :: rest).length, by simp, Nat.le_refl _, ?_, ?_, ?_⟩
      · rw [List.take_length]
      · exact hl
      · intro j hj hjle
        omega
    · intro h
      simp only [findPathAux, hl] at h
      simp at h
  | case3 a rest h ih =>
    have htake : ∀ k, k ≤ rest.length →
        (a :: rest).dropLast.take k = (a :: rest).take k := by
      intro k hk
      rw [List.dropLast_eq_take, List.take_take]
      congr 1
      simp
      omega
    have hdlen : (a :: rest).dropLast.length = rest.length := by
      simp [List.length_dropLast]
    constructor
    · intro src root hsr
      simp only [findPathAux, h] at hsr
      obtain ⟨k, hk0, hkle, hroot, hlk, hmax⟩ := ih.1 src root hsr
      rw [hdlen] at hkle
      refine ⟨k, hk0, by simp; omega, ?_, hlk, ?_⟩
      · rw [hroot, htake k hkle]
      · intro j hj hjle
        simp only [List.length_cons] at hjle
        rcases Nat.lt_or_ge j (rest.length + 1) with hcase | hcase
        · have hjr : j ≤ rest.length := by omega
          rw [← htake j hjr]
          exact hmax j hj (by rw [hdlen]; exact hjr)
        · have hj' : j = (a :: rest).length := by simp; omega
          rw [hj', List.take_length]
          exact h
    · intro hnone k hk0 hkle
      simp only [findPathAux, h] at hnone
      simp only [List.length_cons] at hkle
      rcases Nat.lt_or_ge k (rest.length + 1) with hcase | hcase
      · have hkr : k ≤ rest.length := by omega
        rw [← htake k hkr]
        exact ih.2 hnone k hk0 (by rw [hdlen]; exact hkr)
      · have hk' : k = (a :: rest).length := by simp; omega
        rw [hk', List.take_length]
        exact h

/-- Spec-side notion for C3: `p` is a segment-wise ancestor of `path` — the
string rejoined with `/` from a non-empty prefix of `path`'s `/`-separated
segments. -/
def isSegmentAncestor (p path : String) : Prop :=
  ∃ k, 0 < k ∧ k ≤ (splitSlash path).length ∧
    p = joinSlash ((splitSlash path).take k)

/-- C3: `findPath` either returns the longest registered prefix that is a
segment-wise ancestor of the path together with its `Source` (no strictly
longer ancestor is registered), or `none` when no segment-wise ancestor is
registered. -/
theorem findPath_longest_prefix (r : Router) (path : String) :
    (∀ src root, findPath r path = some (src, root) →
      lookupRoute r root = some src ∧ isSegmentAncestor root path ∧
      ∀ q, isSegmentAncestor q path → root.length < q.length →
        lookupRoute r q = none) ∧
    (findPath r path = none →
      ∀ q, isSegmentAncestor q path → lookupRoute r q = none) := by
  have hspec := findPathAux_spec r (splitSlash path)
  constructor
  · intro src root h
    obtain ⟨k, hk0, hkle, hroot, hlk, hmax⟩ := hspec.1 src root h
    refine ⟨hlk, ⟨k, hk0, hkle, hroot⟩, ?_⟩
    rintro q ⟨kq, hkq0, hkqle, rfl⟩ hlen
    rcases Nat.lt_or_ge k kq with hcase | hcase
    · exact hmax kq hcase hkqle
    · exfalso
      have hmono :=
        joinSlash_take_mono (splitSlash path) kq k hkq0 hcase hkle
      rw [hroot] at hlen
      omega
  · intro h q hq
    obtain ⟨kq, hkq0, hkqle, rfl⟩ := hq
    exact hspec.2 h kq hkq0 hkqle

/-- Spec-side for C5/C7/C8: the record a configuration line contributes —
nothing for comment lines, blank lines and lines without exactly 3 fields,
otherwise the `(prefix, Source)` pair read from its fields. -/
def recordOfLine (line : String) : Option (String × Source) :=
  if startsWithHash line then none
  else if (fields line).length = 3 then
    some ((fields line).getD 0 "",
      ⟨(fields line).getD 1 "", (fields line).getD 2 ""⟩)
  else none

/-- The records of a configuration file, in file order. -/
def recordsOf (lines : List String) : List (String × Source) :=
  lines.filterMap recordOfLine

/-- One unfolding step of the scanner loop. -/
theorem newRouterLines_cons (filename : String) (r : Router) (n : Nat)
    (line : String) (rest : List String) :
    newRouterLines filename r n (line :: rest) =
      if startsWithHash line then
        newRouterLines filename r (n + 1) rest
      else if (fields line).length = 0 then
        newRouterLines filename r (n + 1) rest
      else if (fields line).length ≠ 3 then
        newRouterLines filename r (n + 1) rest
      else if (lookupRoute r ((fields line).getD 0 "")).isSome then
        .error (.dupEntry filename (n + 1) ((fields line).getD 0 ""))
      else
        newRouterLines filename
          (r ++ [((fields line).getD 0 "",
            ⟨(fields line).getD 1 "", (fields line).getD 2 ""⟩)])
          (n + 1) rest := rfl

/-- When the accumulated keys and the record prefixes are pairwise
distinct, the scanner loop succeeds and appends exactly the records. -/
theorem newRouterLines_ok (filename : String) (lines : List String)
    (r : Router) (n : Nat)
    (hnd : ((r ++ recordsOf lines).map Prod.fst).Nodup) :
    newRouterLines filename r n lines = .ok (r ++ recordsOf lines) := by
  induction lines generalizing r n with
  | nil => simp [newRouterLines, recordsOf]
  | cons line rest ih =>
    by_cases hc : startsWithHash line
    · have hrw : recordsOf (line :: rest) = recordsOf rest := by
        simp [recordsOf, List.filterMap_cons, recordOfLine, hc]
      rw [hrw] at hnd ⊢
      rw [newRouterLines_cons, if_pos hc]
      exact ih r (n + 1) hnd
    · by_cases h3 : (fields line).length = 3
      · have hb : ¬ (fields line).length = 0 := by omega
        have hrec : recordOfLine line =
            some ((fields line).getD 0 "",
              ⟨(fields line).getD 1 "", (fields line).getD 2 ""⟩) := by
          simp [recordOfLine, hc, h3]
        have hrw : recordsOf (line :: rest) =
            ((fields line).getD 0 "",
              (⟨(fields line).getD 1 "", (fields line).getD 2 ""⟩ : Source)) ::
              recordsOf rest := by
          simp [recordsOf, List.filterMap_cons, hrec]
        rw [hrw] at hnd ⊢
        have hkey : (fields line).getD 0 "" ∉ r.map Prod.fst := by
          have hnd2 := hnd
          rw [List.map_append, List.nodup_append] at hnd2
          intro hmem
          exact hnd2.2.2 hmem (by simp)
        have hlk : ¬ (lookupRoute r ((fields line).getD 0 "")).isSome = true := by
          intro hcon
          exact hkey ((lookupRoute_isSome r _).mp hcon)
        rw [newRouterLines_cons, if_neg hc, if_neg hb,
          if_neg (by omega : ¬ (fields line).length ≠ 3), if_neg hlk]
        have hnd' : (((r ++ [((fields line).getD 0 "",
            (⟨(fields line).getD 1 "", (fields line).getD 2 ""⟩ : Source))]) ++
            recordsOf rest).map Prod.fst).Nodup := by
          rw [List.append_assoc, List.singleton_append]
          exact hnd
        rw [ih _ (n + 1) hnd', List.append_assoc, List.singleton_append]
      · have hrw : recordsOf (line :: rest) = recordsOf rest := by
          simp [recordsOf, List.filterMap_cons, recordOfLine, hc, h3]
        rw [hrw] at hnd ⊢
        by_cases hb : (fields line).length = 0
        · rw [newRouterLines_cons, if_neg hc, if_pos hb]
          exact ih r (n + 1) hnd
        · rw [newRouterLines_cons, if_neg hc, if_neg hb, if_pos h3]
          exact ih r (n + 1) hnd

/-- When the accumulated keys are duplicate-free but a duplicate exists
among them together with the upcoming record prefixes, the scanner loop
fails fast: it stops at the first line whose record prefix was already
seen, reporting that line's 1-based number and the duplicated prefix,
with every record before that line still duplicate-free. -/
theorem newRouterLines_dup (filename : String) (lines : List String)
    (r : Router) (n : Nat)
    (hra : (r.map Prod.fst).Nodup)
    (hdup : ¬ ((r ++ recordsOf lines).map Prod.fst).Nodup) :
    ∃ m key, newRouterLines filename r n lines =
        .error (.dupEntry filename (n + m) key) ∧
      1 ≤ m ∧ m ≤ lines.length ∧
      (recordOfLine (lines.getD (m - 1) "")).map Prod.fst = some key ∧
      key ∈ (r ++ recordsOf (lines.take (m - 1))).map Prod.fst ∧
      ((r ++ recordsOf (lines.take (m - 1))).map Prod.fst).Nodup := by
  induction lines generalizing r n with
  | nil =>
    exfalso
    simp [recordsOf] at hdup
    exact hdup hra
  | cons line rest ih =>
    by_cases hsk : recordOfLine line = none
    · have hrw : recordsOf (line :: rest) = recordsOf rest := by
        simp [recordsOf, List.filterMap_cons, hsk]
      rw [hrw] at hdup
      obtain ⟨m, key, hloop, h1, hm, hrec, hmem, hnd⟩ := ih r (n + 1) hra hdup
      obtain ⟨m', rfl⟩ : ∃ m', m = m' + 1 := ⟨m - 1, by omega⟩
      have hskip : newRouterLines filename r n (line :: rest) =
          newRouterLines filename r (n + 1) rest := by
        rw [newRouterLines_cons]
        by_cases hc : startsWithHash line
        · rw [if_pos hc]
        · have h3 : ¬ (fields line).length = 3 := by
            intro hcon
            simp [recordOfLine, hc, hcon] at hsk
          by_cases hb : (fields line).length = 0
          · rw [if_neg hc, if_pos hb]
          · rw [if_neg hc, if_neg hb, if_pos h3]
      refine ⟨m' + 1 + 1, key, ?_, by omega, by simp; omega, ?_, ?_, ?_⟩
      · have harith : n + (m' + 1 + 1) = n + 1 + (m' + 1) := by omega
        rw [hskip, harith, hloop]
      · simpa using hrec
      · simpa [recordsOf, List.filterMap_cons, hsk] using hmem
      · simpa [recordsOf, List.filterMap_cons, hsk] using hnd
    · obtain ⟨⟨key0, src0⟩, hrec0⟩ := Option.ne_none_iff_exists'.mp hsk
      have hc : ¬ startsWithHash line = true := by
        intro hcon
        simp [recordOfLine, hcon] at hrec0
      have h3 : (fields line).length = 3 := by
        by_contra hcon
        simp [recordOfLine, hc, hcon] at hrec0
      have hb : ¬ (fields line).length = 0 := by omega
      have hkey0 : (fields line).getD 0 "" = key0 ∧
          (⟨(fields line).getD 1 "", (fields line).getD 2 ""⟩ : Source) = src0 := by
        have h := hrec0
        rw [recordOfLine, if_neg hc, if_pos h3] at h
        have h2 := Option.some.inj h
        exact ⟨congrArg Prod.fst h2, congrArg Prod.snd h2⟩
      obtain ⟨hk0, hs0⟩ := hkey0
      have hrw : recordsOf (line :: rest) = (key0, src0) :: recordsOf rest := by
        simp [recordsOf, List.filterMap_cons, hrec0]
      rw [hrw] at hdup
      by_cases hmem0 : key0 ∈ r.map Prod.fst
      · have hlk : (lookupRoute r ((fields line).getD 0 "")).isSome = true := by
          rw [hk0]
          exact (lookupRoute_isSome r key0).mpr hmem0
        refine ⟨1, key0, ?_, Nat.le_refl 1, by simp, ?_, ?_, ?_⟩
        · rw [newRouterLines_cons, if_neg hc, if_neg hb,
            if_neg (by omega : ¬ (fields line).length ≠ 3), if_pos hlk, hk0]
        · simp only [Nat.sub_self, List.getD_cons_zero]
          rw [hrec0]
          rfl
        · simpa [recordsOf] using hmem0
        · simpa [recordsOf] using hra
      · have hlk : ¬ (lookupRoute r ((fields line).getD 0 "")).isSome = true := by
          rw [hk0]
          intro hcon
          exact hmem0 ((lookupRoute_isSome r key0).mp hcon)
        have hra' : ((r ++ [(key0, src0)]).map Prod.fst).Nodup := by
          rw [List.map_append]
          refine List.Nodup.append hra (by simp) ?_
          intro a ha ha'
          simp at ha'
          exact hmem0 (ha' ▸ ha)
        have hdup' : ¬ (((r ++ [(key0, src0)]) ++ recordsOf rest).map
            Prod.fst).Nodup := by
          rw [List.append_assoc, List.singleton_append]
          exact hdup
        obtain ⟨m, key, hloop, h1, hm, hrec, hmem, hnd⟩ :=
          ih (r ++ [(key0, src0)]) (n + 1) hra' hdup'
        obtain ⟨m', rfl⟩ : ∃ m', m = m' + 1 := ⟨m - 1, by omega⟩
        refine ⟨m' + 1 + 1, key, ?_, by omega, by simp; omega, ?_, ?_, ?_⟩
        · rw [newRouterLines_cons, if_neg hc, if_neg hb,
            if_neg (by omega : ¬ (fields line).length ≠ 3), if_neg hlk,
            hk0, hs0]
          have harith : n + (m' + 1 + 1) = n + 1 + (m' + 1) := by omega
          rw [harith, hloop]
        · simpa using hrec
        · simp only [Nat.add_sub_cancel] at hmem ⊢
          rw [List.take_succ_cons, recordsOf, List.filterMap_cons, hrec0,
            ← recordsOf]
          simpa [List.append_assoc] using hmem
        · simp only [Nat.add_sub_cancel] at hnd ⊢
          rw [List.take_succ_cons, recordsOf, List.filterMap_cons, hrec0,
            ← recordsOf]
          simpa [List.append_assoc] using hnd

/-- C7: for a well-formed configuration file (every non-comment, non-blank
line has exactly 3 fields, record prefixes pairwise distinct) read without
scanner error, `NewRouter` succeeds and the resulting table is exactly the
file's records in order; comment and blank lines contribute nothing. -/
theorem newRouter_wellformed (filename : String) (lines : List String)
    (hwf : ∀ line ∈ lines, startsWithHash line = false →
      fields line ≠ [] → (fields line).length = 3)
    (hnd : ((recordsOf lines).map Prod.fst).Nodup) :
    NewRouter filename (some (lines, false)) = .ok (recordsOf lines) := by
  have h := newRouterLines_ok filename lines [] 0 (by simpa using hnd)
  rw [List.nil_append] at h
  simp [NewRouter, h]

/-- C8: `NewRouter` returns a table as a success result exactly when the
file opened, the scanner finished without error, and the records parsed
with pairwise-distinct prefixes; the successful table is the full record
list of the whole file — a load that hits any error never returns a table
as a success result. -/
theorem newRouter_success_iff (filename : String)
    (file : Option (List String × Bool)) (r : Router) :
    NewRouter filename file = .ok r ↔
      ∃ lines, file = some (lines, false) ∧
        ((recordsOf lines).map Prod.fst).Nodup ∧ r = recordsOf lines := by
  constructor
  · intro h
    cases file with
    | none => simp [NewRouter] at h
    | some lb =>
      obtain ⟨lines, scanErr⟩ := lb
      by_cases hnd : ((recordsOf lines).map Prod.fst).Nodup
      · have hok := newRouterLines_ok filename lines [] 0 (by simpa using hnd)
        rw [List.nil_append] at hok
        simp only [NewRouter, hok] at h
        cases scanErr with
        | false =>
          simp at h
          exact ⟨lines, rfl, hnd, h.symm⟩
        | true => simp at h
      · obtain ⟨m, key, hloop, -, -, -, -, -⟩ :=
          newRouterLines_dup filename lines [] 0 (by simp) (by simpa using hnd)
        simp [NewRouter, hloop] at h
  · rintro ⟨lines, rfl, hnd, rfl⟩
    have hstep := newRouterLines_ok filename lines [] 0 (by simpa using hnd)
    rw [List.nil_append] at hstep
    simp [NewRouter, hstep]

theorem newRouter_wellformed_witness :
    NewRouter "gogive.conf"
        (some (["# comment", "",
          "/net/lldp git https://example.org/net/lldp.git",
          "/www hg https://example.org/www"], false)) =
      .ok (recordsOf ["# comment", "",
        "/net/lldp git https://example.org/net/lldp.git",
        "/www hg https://example.org/www"]) :=
  newRouter_wellformed "gogive.conf"
    ["# comment", "",
      "/net/lldp git https://example.org/net/lldp.git",
      "/www hg https://example.org/www"]
    (by decide) (by decide)

/-- C5 counterexample: a file whose first and second lines are both
non-comment, non-blank records sharing the first field `/a`, yet
`NewRouter` succeeds (the second, 2-field line is skipped) instead of
failing with a parse error for the duplicate. -/
theorem newRouter_duplicate_claim_cex :
    startsWithHash "/a git url" = false ∧ startsWithHash "/a hg" = false ∧
    fields "/a git url" ≠ [] ∧ fields "/a hg" ≠ [] ∧
    (fields "/a git url").getD 0 "" = "/a" ∧
    (fields "/a hg").getD 0 "" = "/a" ∧
    NewRouter "gogive.conf" (some (["/a git url", "/a hg"], false)) =
      .ok [("/a", ⟨"git", "url"⟩)] :=
  ⟨rfl, rfl, by decide, by decide, rfl, rfl, rfl⟩

/-- C5 (amended to records with exactly 3 fields): when two such records
share their first field, `NewRouter` fails with the duplicate-entry parse
error carrying the file name, the duplicated prefix, and the 1-based line
number of the second occurrence; it fails fast — the records on the lines
before the reported one are still duplicate-free. -/
theorem newRouter_duplicate (filename : String) (lines : List String)
    (scanErr : Bool)
    (hdup : ¬ ((recordsOf lines).map Prod.fst).Nodup) :
    ∃ n key, NewRouter filename (some (lines, scanErr)) =
        .error (.dupEntry filename n key) ∧
      1 ≤ n ∧ n ≤ lines.length ∧
      (recordOfLine (lines.getD (n - 1) "")).map Prod.fst = some key ∧
      key ∈ (recordsOf (lines.take (n - 1))).map Prod.fst ∧
      ((recordsOf (lines.take (n - 1))).map Prod.fst).Nodup := by
  obtain ⟨m, key, hloop, h1, hm, hrec, hmem, hnd⟩ :=
    newRouterLines_dup filename lines [] 0 (by simp) (by simpa using hdup)
  refine ⟨m, key, ?_, h1, hm, hrec, by simpa using hmem, by simpa using hnd⟩
  simp [NewRouter, hloop]

theorem newRouter_duplicate_witness :
    ∃ n key, NewRouter "gogive.conf"
        (some (["/a git u1", "/a hg u2"], false)) =
        .error (.dupEntry "gogive.conf" n key) ∧
      1 ≤ n ∧ n ≤ (["/a git u1", "/a hg u2"] : List String).length ∧
      (recordOfLine ((["/a git u1", "/a hg u2"] : List String).getD
        (n - 1) "")).map Prod.fst = some key ∧
      key ∈ (recordsOf ((["/a git u1", "/a hg u2"] : List String).take
        (n - 1))).map Prod.fst ∧
      ((recordsOf ((["/a git u1", "/a hg u2"] : List String).take
        (n - 1))).map Prod.fst).Nodup :=
  newRouter_duplicate "gogive.conf" ["/a git u1", "/a hg u2"] false
    (by decide)

/-- Every key a successful run of the scanner loop ends with either was
already accumulated or is the first of the 3 fields of some line. -/
theorem newRouterLines_keys (P : String → Prop)
    (hP : ∀ line, (fields line).length = 3 → P ((fields line).getD 0 ""))
    (filename : String) (lines : List String) (r : Router) (n : Nat)
    (res : Router) (h : newRouterLines filename r n lines = .ok res)
    (hr : ∀ kv ∈ r, P kv.1) :
    ∀ kv ∈ res, P kv.1 := by
  induction lines generalizing r n with
  | nil =>
    have : r = res := by simpa [newRouterLines] using h
    exact this ▸ hr
  | cons line rest ih =>
    rw [newRouterLines_cons] at h
    by_cases hc : startsWithHash line
    · rw [if_pos hc] at h
      exact ih r (n + 1) h hr
    · rw [if_neg hc] at h
      by_cases hb : (fields line).length = 0
      · rw [if_pos hb] at h
        exact ih r (n + 1) h hr
      · rw [if_neg hb] at h
        by_cases h3 : (fields line).length = 3
        · rw [if_neg (by omega : ¬ (fields line).length ≠ 3)] at h
          by_cases hlk : (lookupRoute r ((fields line).getD 0 "")).isSome = true
          · rw [if_pos hlk] at h
            exact absurd h (by simp)
          · rw [if_neg hlk] at h
            refine ih _ (n + 1) h ?_
            intro kv hkv
            rcases List.mem_append.mp hkv with hkv | hkv
            · exact hr kv hkv
            · have : kv = ((fields line).getD 0 "",
                  (⟨(fields line).getD 1 "", (fields line).getD 2 ""⟩ :
                    Source)) := by
                simpa using hkv
              rw [this]
              exact hP line h3
        · rw [if_pos h3] at h
          exact ih r (n + 1) h hr

/-- C9: every prefix key of a table produced by a successful load is a
non-empty string containing no white space (it is a field of some line),
and consequently the empty-string candidate `findPath` tests last never
matches a loaded table. -/
theorem newRouter_keys_nonempty (filename : String)
    (file : Option (List String × Bool)) (r : Router)
    (h : NewRouter filename file = .ok r) :
    (∀ kv ∈ r, kv.1 ≠ "" ∧ ∀ c ∈ kv.1.data, goIsSpace c = false) ∧
    lookupRoute r "" = none := by
  have hP : ∀ line, (fields line).length = 3 →
      ((fields line).getD 0 "" ≠ "" ∧
        ∀ c ∈ ((fields line).getD 0 "").data, goIsSpace c = false) := by
    intro line h3
    have hne : fields line ≠ [] := by
      intro hcon
      rw [hcon] at h3
      simp at h3
    exact fields_words line _ (getD_zero_mem (fields line) "" hne)
  have hkeys : ∀ kv ∈ r, kv.1 ≠ "" ∧ ∀ c ∈ kv.1.data, goIsSpace c = false := by
    cases file with
    | none => simp [NewRouter] at h
    | some lb =>
      obtain ⟨lines, scanErr⟩ := lb
      cases hres : newRouterLines filename [] 0 lines with
      | error e => simp [NewRouter, hres] at h
      | ok r0 =>
        have hr0 : r = r0 := by
          simp only [NewRouter, hres] at h
          cases scanErr with
          | false =>
            have h2 := h
            simp at h2
            exact h2.symm
          | true => simp at h
        exact hr0 ▸ newRouterLines_keys
          (fun key => key ≠ "" ∧ ∀ c ∈ key.data, goIsSpace c = false)
          hP filename lines [] 0 r0 hres (by simp)
  refine ⟨hkeys, ?_⟩
  rw [lookupRoute_eq_none]
  intro kv hkv
  exact (hkeys kv hkv).1

theorem newRouter_keys_nonempty_witness :
    ((∀ kv ∈ ([("/a", ⟨"git", "url"⟩)] : Router), kv.1 ≠ "" ∧
        ∀ c ∈ kv.1.data, goIsSpace c = false) ∧
      lookupRoute [("/a", ⟨"git", "url"⟩)] "" = none) :=
  newRouter_keys_nonempty "gogive.conf" (some (["/a git url"], false))
    [("/a", ⟨"git", "url"⟩)] (by rfl)
